import Mathlib

/-!
# netcat `network.c`: host and port resolution, listening sockets

A shallow embedding of the four functions of `src/network.c`
(`netcat_resolvehost`, `netcat_getport`, `netcat_socket_new_listen`,
`netcat_socket_accept`) and the properties proved about them.

Conventions of the embedding.

* A `char` is a `Char` (the bytes of C are the characters of code below 256), a
  `char` buffer is a `List Char` of the buffer's size, and the string a
  `char *` designates is the run of characters before the first NUL (`cstr`).
* The global flags `opt_numeric`, `opt_verbose` and `opt_udpmode` are
  parameters.
* The C library and the operating system are parameters: the service
  database, the resolver and the socket layer are records of functions, and
  every call made to them is logged in a trace returned with the result, as are
  the diagnostics written to `stderr`. The output of the debugging macros
  `debug_v` and `debug_dv` is left out.
* `netcat.h` is not part of the sources at hand, so the array sizes it declares
  are the fields of `Sizes`; the width of `long` and the byte order are the
  fields of `Abi`.
* A run that hits a failed `assert`, reads a string through `NULL` or writes
  outside a buffer has no return value: the embedding returns `Except.error`
  with the `Fault`.
-/

namespace Netcat

/-! ## C strings and buffers -/

/-- The terminating NUL character. -/
def NUL : Char := Char.ofNat 0

/-- The string a `char *` designates: the characters before the first NUL. -/
def cstr (s : List Char) : List Char := s.takeWhile (fun c => c != NUL)

/-- Reasons for which a run has no return value. -/
inductive Fault where
  | assert_failed
  | buffer_overflow
  | null_pointer
  deriving DecidableEq, Repr

/-- `memset(buf, 0, n)` on a buffer of `n` bytes. -/
def memset0 (n : Nat) : List Char := List.replicate n NUL

/-- `strcpy(buf, src)`: the string and its terminator are written at the start
of `buf`; writing past the end of `buf` is a fault. -/
def strcpy (buf src : List Char) : Except Fault (List Char) :=
  let s := cstr src
  if s.length + 1 ≤ buf.length then
    .ok (s ++ NUL :: buf.drop (s.length + 1))
  else
    .error .buffer_overflow

/-- The `n` bytes `strncpy(buf, src, n)` writes: the first `min n (strlen src)`
characters of `src`, then NULs (so no terminator when `strlen src ≥ n`). -/
def strncpy_bytes (src : List Char) (n : Nat) : List Char :=
  (cstr src).take n ++ List.replicate (n - ((cstr src).take n).length) NUL

/-- `strncpy(buf, src, n)`: exactly `n` bytes are written at the start of `buf`;
`n` larger than the buffer is a fault. -/
def strncpy (buf src : List Char) (n : Nat) : Except Fault (List Char) :=
  if n ≤ buf.length then
    .ok (strncpy_bytes src n ++ buf.drop n)
  else
    .error .buffer_overflow

/-- `snprintf(buf, sizeof(buf), "%hu", n)`: the decimal digits of `n`, cut to
`sizeof(buf) - 1` characters, and a terminator; nothing is written to a buffer
of size 0. -/
def snprintf_hu (buf : List Char) (n : Nat) : List Char :=
  if buf.length = 0 then buf
  else
    let s := (Nat.repr (n % 65536)).toList.take (buf.length - 1)
    s ++ NUL :: buf.drop (s.length + 1)

/-- `isspace` in the C locale. -/
def isspace (c : Char) : Bool := c.toNat == 32 || (9 ≤ c.toNat && c.toNat ≤ 13)

/-- `isdigit`. -/
def isdigit (c : Char) : Bool := 48 ≤ c.toNat && c.toNat ≤ 57

/-- Value of a decimal digit character. -/
def digit_val (c : Char) : Nat := c.toNat - 48

/-- Base-10 value of a run of digit characters. -/
def decimal_value (ds : List Char) : Nat := ds.foldl (fun a c => a * 10 + digit_val c) 0

/-- `tolower` in the C locale. -/
def tolower (c : Char) : Char :=
  if 65 ≤ c.toNat ∧ c.toNat ≤ 90 then Char.ofNat (c.toNat + 32) else c

/-- `strcasecmp(a, b) != 0`: the two strings differ when case is ignored. -/
def strcasecmp_ne (a b : List Char) : Bool :=
  (cstr a).map tolower != (cstr b).map tolower

/-- The string literal `"(unknown)"`. -/
def unknown : List Char := "(unknown)".toList

/-- Reading a string through a pointer that may be `NULL`. -/
def deref (p : Option (List Char)) : Except Fault (List Char) :=
  match p with
  | some s => .ok s
  | none => .error .null_pointer

/-! ## Target parameters and number conversions -/

/-- Properties of the C implementation the code is compiled for. -/
structure Abi where
  /-- `LONG_MAX`. -/
  long_max : Nat
  /-- Whether host byte order is network byte order. -/
  big_endian : Bool

/-- Sizes of the arrays declared in `netcat.h`. -/
structure Sizes where
  /-- `sizeof(((netcat_host *)0)->name)`. -/
  host_name_size : Nat
  /-- `MAXHOSTNAMELEN`. -/
  MAXHOSTNAMELEN : Nat
  /-- `sizeof(((netcat_host *)0)->addrs[0])`. -/
  addr_size : Nat
  /-- `sizeof(((netcat_port *)0)->name)`. -/
  port_name_size : Nat
  /-- `sizeof(((netcat_port *)0)->ascnum)`. -/
  ascnum_size : Nat

/-- Conversion of an `int` to `unsigned short`. -/
def to_u16 (i : Int) : Nat := (i % 65536).toNat

/-- `htons`: the two bytes of a 16-bit value are swapped on a little-endian
host and left alone on a big-endian one. -/
def htons (T : Abi) (x : Nat) : Nat :=
  if T.big_endian then x % 65536 else (x % 256) * 256 + (x % 65536) / 256

/-- `ntohs` is the same byte swap as `htons`. -/
def ntohs (T : Abi) (x : Nat) : Nat := htons T x

/-- `strtol(s, &endptr, 10)`: optional white space, an optional sign, then
decimal digits; the value is clamped to `LONG_MIN .. LONG_MAX`. The result is
the value and `endptr - s`; with no digits, no conversion is made and
`endptr = s`. -/
def strtol (T : Abi) (s : List Char) : Int × Nat :=
  let ws := s.takeWhile isspace
  let s1 := s.dropWhile isspace
  let neg : Bool := s1.head? == some '-'
  let sg : Nat := if s1.head? == some '-' || s1.head? == some '+' then 1 else 0
  let ds := (s1.drop sg).takeWhile isdigit
  if ds = [] then (0, 0)
  else
    let v : Int := decimal_value ds
    let val : Int := if neg then max (-v) (-(T.long_max : Int) - 1) else min v T.long_max
    (val, ws.length + sg + ds.length)

/-! ## `netcat_getport` -/

/-- The fields of `netcat_port` the function writes. -/
structure netcat_port where
  name : List Char
  ascnum : List Char
  num : Nat
  deriving DecidableEq, Repr

/-- The fields of `struct servent` the function reads; `s_port` is in network
byte order. -/
structure servent where
  s_name : List Char
  s_port : Int
  deriving DecidableEq, Repr

/-- The service database of the C library. -/
structure ServiceDb where
  getservbyport : Int → List Char → Option servent
  getservbyname : List Char → List Char → Option servent

/-- Calls made to the service database. -/
inductive DbCall where
  | getservbyport (port : Int) (proto : List Char)
  | getservbyname (name : List Char) (proto : List Char)
  deriving DecidableEq, Repr

/-- Line 123: the protocol name given to the service database. -/
def get_proto (opt_udpmode : Bool) : List Char :=
  if opt_udpmode then "udp".toList else "tcp".toList

/-- Lines 136-137: `memset(dst, 0, sizeof(*dst)); strcpy(dst->name, "(unknown)")`. -/
def reset_port (S : Sizes) : Except Fault netcat_port := do
  let name ← strcpy (memset0 S.port_name_size) unknown
  pure { name := name, ascnum := memset0 S.ascnum_size, num := 0 }

/-- Lines 182-184, label `end`: `dst->ascnum` is printed from `dst->num`. -/
def getport_end (dst : netcat_port) : netcat_port :=
  { dst with ascnum := snprintf_hu dst.ascnum dst.num }

/-- Lines 136-150 and 182-184: `netcat_getport(dst, NULL, port_num)`, the branch
taken when `port_string` is `NULL`; `port_num` is an `unsigned short`, a number
below 65536. The result is the returned `bool`, the contents of `*dst` and the
calls made to the service database. -/
def netcat_getport_num (T : Abi) (S : Sizes) (db : ServiceDb) (opt_udpmode : Bool)
    (port_num : Nat) : Except Fault (Bool × netcat_port × List DbCall) := do
  let dst ← reset_port S
  if port_num = 0 then
    return (false, dst, [])
  let q : Int := htons T port_num
  let call := DbCall.getservbyport q (get_proto opt_udpmode)
  match db.getservbyport q (get_proto opt_udpmode) with
  | some se =>
    if port_num ≠ ntohs T (to_u16 se.s_port) then
      throw Fault.assert_failed
    let name ← strncpy dst.name se.s_name dst.name.length
    return (true, getport_end { dst with name := name, num := port_num }, [call])
  | none =>
    return (true, getport_end { dst with num := port_num }, [call])

/-- Lines 120-185. `port_string = none` is the `NULL` pointer. The recursive
call of line 165 passes `NULL`, so it is `netcat_getport_num`. -/
def netcat_getport (T : Abi) (S : Sizes) (db : ServiceDb) (opt_udpmode : Bool)
    (port_string : Option (List Char)) (port_num : Nat) :
    Except Fault (Bool × netcat_port × List DbCall) :=
  match port_string with
  | none => netcat_getport_num T S db opt_udpmode port_num
  | some str => do
    let dst ← reset_port S
    let s := cstr str
    if s = [] then
      return (false, dst, [])
    let (port, endptr) := strtol T s
    if s.drop endptr = [] then
      if 0 < port ∧ port < 65536 then
        netcat_getport_num T S db opt_udpmode (to_u16 port)
      else
        return (false, dst, [])
    else if endptr ≠ 0 then
      return (false, dst, [])
    else
      let call := DbCall.getservbyname s (get_proto opt_udpmode)
      match db.getservbyname s (get_proto opt_udpmode) with
      | some se =>
        let name ← strncpy dst.name se.s_name dst.name.length
        return (true, getport_end { dst with name := name, num := ntohs T (to_u16 se.s_port) },
          [call])
      | none =>
        return (false, dst, [call])

/-! ## `netcat_resolvehost` -/

/-- An IPv4 address, `struct in_addr`: `s_addr` is the number whose four bytes,
the first one most significant, are the address. -/
structure in_addr where
  s_addr : Nat
  deriving DecidableEq, Repr

/-- The fields of `struct hostent` the function reads. `h_name = none` is a
`NULL` name; `h_addr_list` is the list of addresses before the terminating
`NULL`. -/
structure hostent where
  h_name : Option (List Char)
  h_addr_list : List in_addr
  deriving DecidableEq, Repr

/-- The fields of `netcat_host`: the name, and the text and binary forms of the
addresses, arrays of the 8 entries the loops of lines 60 and 69 count. -/
structure netcat_host where
  name : List Char
  addrs : List (List Char)
  iaddrs : List in_addr
  deriving DecidableEq, Repr

/-- The resolver of the C library. `inet_pton(AF_INET, ...)` answers `some a`
when it returns 1 and `none` when it returns 0; the two lookups read and change
a state `σ` of the resolver. -/
structure Resolver (σ : Type) where
  inet_pton : List Char → Option in_addr
  gethostbyname : σ → List Char → Option hostent × σ
  gethostbyaddr : σ → in_addr → Option hostent × σ

/-- Lookups made and diagnostics written to `stderr`, in order. `inet_pton`
only parses its argument and is not logged. -/
inductive HostEvent where
  | gethostbyname (name : List Char)
  | gethostbyaddr (addr : in_addr)
  | warn_inverse_failed (addr : List Char)
  | warn_mismatch (name : List Char) (h_name : List Char)
  | error_inverse_failed (name : List Char)
  | warn_direct_failed (name : List Char)
  deriving DecidableEq, Repr

/-- `inet_ntoa`: the four bytes in decimal, separated by dots. -/
def inet_ntoa (a : in_addr) : List Char :=
  (Nat.repr (a.s_addr / 16777216 % 256)).toList ++ '.' ::
    (Nat.repr (a.s_addr / 65536 % 256)).toList ++ '.' ::
    (Nat.repr (a.s_addr / 256 % 256)).toList ++ '.' ::
    (Nat.repr (a.s_addr % 256)).toList

/-- Lines 47-48: `memset(dst, 0, sizeof(*dst)); strcpy(dst->name, "(unknown)")`. -/
def reset_host (S : Sizes) : Except Fault netcat_host := do
  let name ← strcpy (memset0 S.host_name_size) unknown
  pure { name := name, addrs := List.replicate 8 (memset0 S.addr_size),
         iaddrs := List.replicate 8 { s_addr := 0 } }

/-- Lines 58 and 95: `strncpy(dst->name, h_name, MAXHOSTNAMELEN - 2)`. -/
def copy_host_name (S : Sizes) (dst : netcat_host) (h_name : Option (List Char)) :
    Except Fault netcat_host := do
  let src ← deref h_name
  if S.MAXHOSTNAMELEN < 2 then
    throw Fault.buffer_overflow
  let name ← strncpy dst.name src (S.MAXHOSTNAMELEN - 2)
  pure { dst with name := name }

/-- Lines 60-63, the loop `for (i = 0; hostent->h_addr_list[i] && (i < 8); i++)`
from index `i` on: the first argument is what is left of `h_addr_list`. -/
def fill_addrs (S : Sizes) : List in_addr → Nat → netcat_host → Except Fault netcat_host
  | [], _, dst => pure dst
  | a :: rest, i, dst =>
    if i < 8 then do
      let iaddrs := dst.iaddrs.set i a
      let row ← strncpy (dst.addrs.getD i []) (inet_ntoa a) S.addr_size
      fill_addrs S rest (i + 1) { dst with iaddrs := iaddrs, addrs := dst.addrs.set i row }
    else
      pure dst

/-- Lines 72-80: the diagnostics for the answer of one reverse lookup. -/
def reverse_warning (dst : netcat_host) (i : Nat) (ans : Option hostent) : List HostEvent :=
  match ans with
  | none => [HostEvent.warn_inverse_failed (cstr (dst.addrs.getD i []))]
  | some he =>
    match he.h_name with
    | none => [HostEvent.warn_inverse_failed (cstr (dst.addrs.getD i []))]
    | some h_name =>
      if strcasecmp_ne dst.name h_name then
        [HostEvent.warn_mismatch (cstr dst.name) (cstr h_name)]
      else
        []

/-- Lines 69-81, the loop `for (i = 0; dst->iaddrs[i].s_addr && (i < 8); i++)`
with `left = 8 - i` iterations to go. At `i = 8` the test `i < 8` fails
whatever is read past the array, and the loop ends. -/
def reverse_checks {σ : Type} (R : Resolver σ) (dst : netcat_host) :
    Nat → σ → List HostEvent × σ
  | 0, w => ([], w)
  | left + 1, w =>
    let i := 8 - (left + 1)
    let a := dst.iaddrs.getD i { s_addr := 0 }
    if a.s_addr ≠ 0 then
      let ans := R.gethostbyaddr w a
      let rest := reverse_checks R dst left ans.2
      (HostEvent.gethostbyaddr a :: reverse_warning dst i ans.1 ++ rest.1, rest.2)
    else
      ([], w)

/-- Lines 84-85: `memcpy(dst->iaddrs, &res_addr, sizeof(struct in_addr))` and
`strncpy(dst->addrs[0], inet_ntoa(res_addr), sizeof(dst->addrs))`, which writes
over the whole two-dimensional array. -/
def store_numeric (S : Sizes) (dst : netcat_host) (res_addr : in_addr) :
    Except Fault netcat_host := do
  let flat ← strncpy dst.addrs.flatten (inet_ntoa res_addr) dst.addrs.flatten.length
  pure { dst with
    iaddrs := dst.iaddrs.set 0 res_addr
    addrs := (List.range 8).map (fun i => (flat.drop (i * S.addr_size)).take S.addr_size) }

/-- Lines 97-105: the diagnostics for the answer of the direct lookup that
follows a successful reverse lookup. -/
def direct_warning (dst : netcat_host) (ans : Option hostent) :
    Except Fault (List HostEvent) :=
  match ans with
  | none => pure [HostEvent.warn_direct_failed (cstr dst.name)]
  | some he =>
    if he.h_addr_list = [] then
      pure [HostEvent.warn_direct_failed (cstr dst.name)]
    else do
      let h_name ← deref he.h_name
      if strcasecmp_ne dst.name h_name then
        pure [HostEvent.warn_mismatch (cstr dst.name) (cstr h_name)]
      else
        pure []

/-- Lines 37-111. `name = none` is a `NULL` pointer; `w` is the state of the
resolver on entry. The result is the returned `bool`, the contents of `*dst`,
the lookups and diagnostics made, and the state of the resolver on return. -/
def netcat_resolvehost {σ : Type} (S : Sizes) (R : Resolver σ)
    (opt_numeric opt_verbose : Bool) (w : σ) (name : Option (List Char)) :
    Except Fault (Bool × netcat_host × List HostEvent × σ) := do
  let name ← match name with
    | some s => pure (cstr s)
    | none => throw Fault.assert_failed
  let dst ← reset_host S
  match R.inet_pton name with
  | none =>
    if opt_numeric then
      return (false, dst, [], w)
    let ans := R.gethostbyname w name
    match ans.1 with
    | none => return (false, dst, [HostEvent.gethostbyname name], ans.2)
    | some he =>
      let dst ← copy_host_name S dst he.h_name
      let dst ← fill_addrs S he.h_addr_list 0 dst
      if !opt_verbose then
        return (true, dst, [HostEvent.gethostbyname name], ans.2)
      let checks := reverse_checks R dst 8 ans.2
      return (true, dst, HostEvent.gethostbyname name :: checks.1, checks.2)
  | some res_addr =>
    let dst ← store_numeric S dst res_addr
    if opt_numeric then
      return (true, dst, [], w)
    if !opt_verbose then
      return (true, dst, [], w)
    let ans := R.gethostbyaddr w res_addr
    match ans.1 with
    | none =>
      return (true, dst,
        [HostEvent.gethostbyaddr res_addr, HostEvent.error_inverse_failed name], ans.2)
    | some he =>
      let dst ← copy_host_name S dst he.h_name
      let ans2 := R.gethostbyname ans.2 (cstr dst.name)
      let warn ← direct_warning dst ans2.1
      return (true, dst,
        HostEvent.gethostbyaddr res_addr :: HostEvent.gethostbyname (cstr dst.name) :: warn,
        ans2.2)

/-! ## `netcat_socket_new_listen` and `netcat_socket_accept` -/

/-- Constants of the system headers, kept symbolic. -/
inductive SysConst where
  | AF_INET
  | PF_INET
  | SOCK_STREAM
  | SOL_SOCKET
  | SO_REUSEADDR
  deriving DecidableEq, Repr

/-- The fields of `struct sockaddr_in` the function sets; `sin_port` is in
network byte order. -/
structure sockaddr_in where
  sin_family : SysConst
  sin_port : Nat
  sin_addr : in_addr
  deriving DecidableEq, Repr

/-- The `struct timeval` given to `select`. -/
structure timeval where
  tv_sec : Int
  tv_usec : Int
  deriving DecidableEq, Repr

/-- System calls with their arguments. For `setsockopt`, `optval` is the `int`
the option pointer designates; for `select`, `readfds` is the set of
descriptors in the `fd_set` and `timeout = none` is a `NULL` pointer, which
makes `select` wait without bound. -/
inductive SysCall where
  | socket (domain : SysConst) (type : SysConst) (protocol : Int)
  | setsockopt (fd : Int) (level : SysConst) (optname : SysConst) (optval : Int)
  | bind (fd : Int) (addr : sockaddr_in)
  | listen (fd : Int) (backlog : Int)
  | select (nfds : Int) (readfds : List Int) (timeout : Option timeval)
  | accept (fd : Int)
  deriving DecidableEq, Repr

/-- The operating system: `call` gives the return value of a system call in a
state and the state after it; `select` gives the descriptors left in the read
set when the call returns, which is all the code looks at. -/
structure Kernel (σ : Type) where
  call : σ → SysCall → Int × σ
  select : σ → Int → List Int → Option timeval → List Int × σ

/-- Lines 187-220. `addr` is the address `*addr`. The result is the returned
`int`, the system calls made, in order, and the state of the system. -/
def netcat_socket_new_listen {σ : Type} (T : Abi) (K : Kernel σ) (w : σ) (addr : in_addr)
    (port : Nat) : Int × List SysCall × σ :=
  let sockopt : Int := 0
  let my_addr : sockaddr_in :=
    { sin_family := SysConst.AF_INET, sin_port := htons T port, sin_addr := addr }
  let c1 := SysCall.socket SysConst.PF_INET SysConst.SOCK_STREAM 0
  let r1 := K.call w c1
  let sock := r1.1
  if sock < 0 then (-1, [c1], r1.2)
  else
    let c2 := SysCall.setsockopt sock SysConst.SOL_SOCKET SysConst.SO_REUSEADDR sockopt
    let r2 := K.call r1.2 c2
    if r2.1 < 0 then (-2, [c1, c2], r2.2)
    else
      let c3 := SysCall.bind sock my_addr
      let r3 := K.call r2.2 c3
      if r3.1 < 0 then (-3, [c1, c2, c3], r3.2)
      else
        let c4 := SysCall.listen sock 4
        let r4 := K.call r3.2 c4
        if r4.1 < 0 then (-4, [c1, c2, c3, c4], r4.2)
        else (sock, [c1, c2, c3, c4], r4.2)

/-- Lines 224-250. `FD_ZERO` and `FD_SET` make the read set `[fd]`. -/
def netcat_socket_accept {σ : Type} (K : Kernel σ) (w : σ) (fd timeout : Int) :
    Int × List SysCall × σ :=
  let timest : timeval := { tv_sec := timeout, tv_usec := 0 }
  let in0 : List Int := [fd]
  let tmo : Option timeval := if timeout > 0 then some timest else none
  let c1 := SysCall.select (fd + 1) in0 tmo
  let r1 := K.select w (fd + 1) in0 tmo
  if fd ∈ r1.1 then
    let c2 := SysCall.accept fd
    let r2 := K.call r1.2 c2
    (r2.1, [c1, c2], r2.2)
  else
    (-1, [c1], r1.2)

/-! ## Vocabulary of the statements -/

/-- The value `strtol` gives to a sign and a run of digits. -/
def signed_value (T : Abi) (sg ds : List Char) : Int :=
  if sg = ['-'] then max (-(decimal_value ds : Int)) (-(T.long_max : Int) - 1)
  else min (decimal_value ds : Int) T.long_max

/-- The string starts with a base-10 integer: white space, an optional sign and
at least one decimal digit. -/
def starts_with_integer (s : List Char) : Prop :=
  ∃ ws sg ds tl : List Char, s = ws ++ sg ++ ds ++ tl ∧ (∀ c ∈ ws, isspace c = true) ∧
    (sg = [] ∨ sg = ['+'] ∨ sg = ['-']) ∧ ds ≠ [] ∧ ∀ c ∈ ds, isdigit c = true

/-- The contract of `getservbyport`, which line 144 asserts: an entry found
for a port carries that port. -/
def ServiceDb.by_port_sound (db : ServiceDb) : Prop :=
  ∀ q proto se, db.getservbyport q proto = some se → se.s_port = q

/-- A buffer of `n` bytes after `memset` to 0 and `strcpy` of `"(unknown)"`. -/
def unknown_buf (n : Nat) : List Char := unknown ++ NUL :: List.replicate (n - 10) NUL

/-- The descriptor after lines 136-137: name `"(unknown)"`, the rest zero. -/
def port_unset (S : Sizes) : netcat_port :=
  { name := unknown_buf S.port_name_size
    ascnum := memset0 S.ascnum_size
    num := 0 }

/-- The descriptor `netcat_getport(dst, NULL, p)` leaves for a port `p` when
the reverse service lookup answers `ans`. -/
def port_of_number (S : Sizes) (ans : Option servent) (p : Nat) : netcat_port :=
  { name :=
      match ans with
      | some se => strncpy_bytes se.s_name S.port_name_size
      | none => unknown_buf S.port_name_size
    ascnum := snprintf_hu (memset0 S.ascnum_size) p
    num := p }

/-- What `netcat_getport` returns once the string went to the lookup by name
(lines 172-184): `ans` is the answer of `getservbyname`. -/
def port_of_name (T : Abi) (S : Sizes) (ans : Option servent) : Bool × netcat_port :=
  match ans with
  | some se =>
    (true,
      { name := strncpy_bytes se.s_name S.port_name_size
        ascnum := snprintf_hu (memset0 S.ascnum_size) (ntohs T (to_u16 se.s_port))
        num := ntohs T (to_u16 se.s_port) })
  | none => (false, port_unset S)

/-- The descriptor after lines 47-48: name `"(unknown)"`, the rest zero. -/
def host_unset (S : Sizes) : netcat_host :=
  { name := unknown_buf S.host_name_size
    addrs := List.replicate 8 (memset0 S.addr_size)
    iaddrs := List.replicate 8 { s_addr := 0 } }

/-- The row of `dst->addrs` written for an address: its text, then NULs. -/
def addr_row (S : Sizes) (a : in_addr) : List Char := strncpy_bytes (inet_ntoa a) S.addr_size

/-- The address a trace event asks the reverse lookup for. -/
def reverse_query (e : HostEvent) : Option in_addr :=
  match e with
  | HostEvent.gethostbyaddr a => some a
  | _ => none

/-- The descriptor a successful forward lookup with name `c` and addresses `l`
leaves. -/
def host_of_lookup (S : Sizes) (c : List Char) (l : List in_addr) : netcat_host :=
  { name := (cstr c).take (S.MAXHOSTNAMELEN - 2) ++
      List.replicate (S.host_name_size - ((cstr c).take (S.MAXHOSTNAMELEN - 2)).length) NUL
    addrs := (l.take 8).map (addr_row S) ++
      List.replicate (8 - (l.take 8).length) (memset0 S.addr_size)
    iaddrs := l.take 8 ++ List.replicate (8 - (l.take 8).length) { s_addr := 0 } }

/-- The value given for `SO_REUSEADDR` by a `setsockopt` call. -/
def reuseaddr_value (c : SysCall) : Option Int :=
  match c with
  | SysCall.setsockopt _ _ SysConst.SO_REUSEADDR v => some v
  | _ => none

/-! ## Sample environment -/

/-- A target with a 64-bit `long` and little-endian byte order. -/
def lp64 : Abi := { long_max := 9223372036854775807, big_endian := false }

/-- Sample array sizes: names of 64 bytes, address texts of 24, port texts of 8. -/
def sizes0 : Sizes :=
  { host_name_size := 64, MAXHOSTNAMELEN := 64, addr_size := 24, port_name_size := 64,
    ascnum_size := 8 }

/-- A small services file: name and port. The last line is the IANA entry for
port 0. -/
def services : List (List Char × Nat) :=
  [("http".toList, 80), ("domain".toList, 53), ("spr-itunes".toList, 0)]

/-- The service database reading `services`: each lookup returns the first
line that matches. -/
def sample_db (T : Abi) : ServiceDb :=
  { getservbyport := fun q _ =>
      (services.find? (fun e => decide ((htons T e.2 : Int) = q))).map
        (fun e => { s_name := e.1, s_port := htons T e.2 })
    getservbyname := fun n _ =>
      (services.find? (fun e => decide (e.1 = n))).map
        (fun e => { s_name := e.1, s_port := htons T e.2 }) }

/-- The scan of the usual `inet_pton` for `AF_INET`: `done` are the octets
completed, `cur` the octet being read and `saw_digit` whether it has a digit.
An octet has no leading zero and is at most 255; there are four octets. -/
def inet_pton4_scan : List Char → List Nat → Nat → Bool → Option (List Nat)
  | [], done, cur, saw_digit =>
    if saw_digit = true ∧ done.length = 3 then some (done ++ [cur]) else none
  | ch :: rest, done, cur, saw_digit =>
    if isdigit ch then
      if saw_digit = true ∧ cur = 0 then none
      else if cur * 10 + digit_val ch > 255 then none
      else inet_pton4_scan rest done (cur * 10 + digit_val ch) true
    else if ch = '.' ∧ saw_digit = true then
      if done.length = 3 then none else inet_pton4_scan rest (done ++ [cur]) 0 false
    else none

/-- The usual `inet_pton(AF_INET, src, dst)`. -/
def inet_pton4 (src : List Char) : Option in_addr :=
  (inet_pton4_scan src [] 0 false).map
    (fun bytes => { s_addr := bytes.foldl (fun acc b => acc * 256 + b) 0 })

/-- A resolver that knows one host, `example.org`, with two addresses: the
reverse lookup knows the second one only, under another name. Its state counts
the lookups made. -/
def sample_resolver : Resolver Nat :=
  { inet_pton := inet_pton4
    gethostbyname := fun w n =>
      (if n = "example.org".toList then
        some { h_name := some "example.org".toList
               h_addr_list := [{ s_addr := 167772162 }, { s_addr := 3221225985 }] }
      else none, w + 1)
    gethostbyaddr := fun w a =>
      (if a.s_addr = 3221225985 then
        some { h_name := some "www.example.net".toList, h_addr_list := [a] }
      else none, w + 1) }

/-- A system in which every call succeeds: `socket` and `accept` return the
next free descriptor, which is the state, the other calls return 0, and
`select` reports every descriptor ready. -/
def sample_kernel : Kernel Int :=
  { call := fun w c =>
      match c with
      | SysCall.socket _ _ _ => (w, w + 1)
      | SysCall.accept _ => (w, w + 1)
      | _ => (0, w)
    select := fun w _ readfds _ => (readfds, w) }

/-! ## Lemmas on strings and buffers -/

theorem cstr_no_nul (s : List Char) : ∀ c ∈ cstr s, c ≠ NUL := by
  intro c hc
  have h := List.mem_takeWhile_imp hc
  simpa using h

theorem cstr_of_no_nul (s : List Char) (h : ∀ c ∈ s, c ≠ NUL) : cstr s = s := by
  unfold cstr
  rw [List.takeWhile_eq_self_iff]
  intro c hc
  simpa using h c hc

theorem cstr_append_nul (s t : List Char) (h : ∀ c ∈ s, c ≠ NUL) :
    cstr (s ++ NUL :: t) = s := by
  unfold cstr
  rw [List.takeWhile_append_of_pos (by intro c hc; simpa using h c hc)]
  simp

theorem cstr_append_replicate (s : List Char) (k : Nat) (h : ∀ c ∈ s, c ≠ NUL) :
    cstr (s ++ List.replicate k NUL) = s := by
  cases k with
  | zero => simpa using cstr_of_no_nul s h
  | succ k => rw [List.replicate_succ]; exact cstr_append_nul s _ h

theorem isdigit_ne_nul (c : Char) (h : isdigit c = true) : c ≠ NUL := by
  intro hc
  subst hc
  revert h
  decide

theorem isdigit_not_isspace (c : Char) (h : isdigit c = true) : isspace c = false := by
  unfold isdigit at h
  unfold isspace
  simp only [Bool.and_eq_true, decide_eq_true_eq] at h
  simp only [Bool.or_eq_false_iff, beq_eq_false_iff_ne, Bool.and_eq_false_iff,
    decide_eq_false_iff_not]
  omega

theorem isspace_ne_nul (c : Char) (h : isspace c = true) : c ≠ NUL := by
  intro hc
  subst hc
  revert h
  decide

theorem decimal_value_append (l : List Char) (d : Char) :
    decimal_value (l ++ [d]) = decimal_value l * 10 + digit_val d := by
  simp [decimal_value, List.foldl_append]

theorem digitChar_spec (d : Nat) (h : d < 10) :
    isdigit (Nat.digitChar d) = true ∧ digit_val (Nat.digitChar d) = d := by
  interval_cases d <;> decide

theorem toDigitsCore_spec (fuel : Nat) : ∀ n acc, n < fuel →
    ∃ l, Nat.toDigitsCore 10 fuel n acc = l ++ acc ∧ l ≠ [] ∧
      (∀ c ∈ l, isdigit c = true) ∧ decimal_value l = n := by
  induction fuel with
  | zero => intro n acc h; omega
  | succ fuel ih =>
    intro n acc h
    have hd := digitChar_spec (n % 10) (Nat.mod_lt _ (by decide))
    simp only [Nat.toDigitsCore]
    by_cases h0 : n / 10 = 0
    · rw [if_pos h0]
      refine ⟨[Nat.digitChar (n % 10)], rfl, by simp, ?_, ?_⟩
      · intro c hc
        rw [List.mem_singleton] at hc
        rw [hc]; exact hd.1
      · have : decimal_value [Nat.digitChar (n % 10)] = digit_val (Nat.digitChar (n % 10)) := by
          simp [decimal_value]
        rw [this, hd.2]
        omega
    · rw [if_neg h0]
      have hlt : n / 10 < fuel := by omega
      obtain ⟨l, hl, _, hdig, hval⟩ := ih (n / 10) (Nat.digitChar (n % 10) :: acc) hlt
      refine ⟨l ++ [Nat.digitChar (n % 10)], ?_, by simp, ?_, ?_⟩
      · rw [hl]; simp
      · intro c hc
        rw [List.mem_append, List.mem_singleton] at hc
        rcases hc with hc | hc
        · exact hdig c hc
        · rw [hc]; exact hd.1
      · rw [decimal_value_append, hval, hd.2]
        omega

/-- The decimal rendering of a number is a non-empty run of digits whose
base-10 value is the number. -/
theorem repr_spec (n : Nat) :
    (Nat.repr n).toList ≠ [] ∧ (∀ c ∈ (Nat.repr n).toList, isdigit c = true) ∧
      decimal_value (Nat.repr n).toList = n := by
  obtain ⟨l, hl, hne, hdig, hval⟩ := toDigitsCore_spec (n + 1) n [] (Nat.lt_succ_self n)
  have : (Nat.repr n).toList = l := by
    simp [Nat.repr, Nat.toDigits, hl, List.asString]
  rw [this]
  exact ⟨hne, hdig, hval⟩

theorem repr_length_u16 (n : Nat) (h : n < 65536) : (Nat.repr n).toList.length ≤ 5 := by
  have h5 : n < 10 ^ 5 := by norm_num; omega
  exact Nat.repr_length n 5 (by decide) h5

/-! ## Lemmas on `strtol` -/

theorem isdigit_ne_sign (c : Char) (h : isdigit c = true) : c ≠ '-' ∧ c ≠ '+' := by
  constructor <;> (intro hc; subst hc; revert h; decide)

theorem takeWhile_head_false (p : Char → Bool) (t : List Char)
    (ht : ∀ c, t.head? = some c → p c = false) : t.takeWhile p = [] ∧ t.dropWhile p = t := by
  cases t with
  | nil => simp
  | cons c t =>
    have := ht c rfl
    simp [List.takeWhile_cons, List.dropWhile_cons, this]

theorem span_split (p : Char → Bool) (l t : List Char) (hl : ∀ c ∈ l, p c = true)
    (ht : ∀ c, t.head? = some c → p c = false) :
    (l ++ t).takeWhile p = l ∧ (l ++ t).dropWhile p = t := by
  have h := takeWhile_head_false p t ht
  constructor
  · rw [List.takeWhile_append_of_pos hl, h.1, List.append_nil]
  · rw [List.dropWhile_append_of_pos hl, h.2]

/-- On white space, an optional sign, a non-empty run of digits and a tail that
does not start with a digit, `strtol` converts the digits and stops at the
tail. -/
theorem strtol_integer (T : Abi) (ws sg ds tl : List Char)
    (hws : ∀ c ∈ ws, isspace c = true) (hsg : sg = [] ∨ sg = ['+'] ∨ sg = ['-'])
    (hne : ds ≠ []) (hds : ∀ c ∈ ds, isdigit c = true)
    (htl : ∀ c, tl.head? = some c → isdigit c = false) :
    strtol T (ws ++ sg ++ ds ++ tl) =
      (signed_value T sg ds, ws.length + sg.length + ds.length) := by
  obtain ⟨d, ds', rfl⟩ := List.exists_cons_of_ne_nil hne
  have hd : isdigit d = true := hds d (by simp)
  have hdsp := isdigit_not_isspace d hd
  have hdsg := isdigit_ne_sign d hd
  have hdig := span_split isdigit (d :: ds') tl hds htl
  have hsp : (ws ++ (sg ++ (d :: ds') ++ tl)).takeWhile isspace = ws ∧
      (ws ++ (sg ++ (d :: ds') ++ tl)).dropWhile isspace = sg ++ (d :: ds') ++ tl := by
    apply span_split isspace ws _ hws
    intro c hc
    rcases hsg with h | h | h <;> subst h <;> simp at hc <;> subst hc
    · exact hdsp
    · decide
    · decide
  have hassoc : ws ++ sg ++ (d :: ds') ++ tl = ws ++ (sg ++ (d :: ds') ++ tl) := by
    simp [List.append_assoc]
  rw [hassoc]
  unfold strtol
  simp only [hsp.1, hsp.2]
  rcases hsg with h | h | h <;> subst h
  · have e1 : (([] : List Char) ++ d :: ds' ++ tl).head? = some d := by simp
    have e2 : (List.drop 0 (([] : List Char) ++ d :: ds' ++ tl)) = (d :: ds') ++ tl := by simp
    simp only [e1, Option.some_beq_some, beq_eq_false_iff_ne.mpr hdsg.1,
      beq_eq_false_iff_ne.mpr hdsg.2, Bool.or_self, Bool.false_eq_true, if_false, e2, hdig.1]
    simp [signed_value]
  · have e1 : (['+'] ++ d :: ds' ++ tl).head? = some '+' := by simp
    have e2 : (List.drop 1 (['+'] ++ d :: ds' ++ tl)) = (d :: ds') ++ tl := by simp
    have e3 : (some '+' == some '-') = false := by decide
    have e4 : (some '+' == some '+') = true := by decide
    simp only [e1, e3, e4, Bool.false_or, if_true, e2, hdig.1]
    simp [signed_value]
  · have e1 : (['-'] ++ d :: ds' ++ tl).head? = some '-' := by simp
    have e2 : (List.drop 1 (['-'] ++ d :: ds' ++ tl)) = (d :: ds') ++ tl := by simp
    have e4 : (some '-' == some '-') = true := by decide
    simp only [e1, e4, Bool.true_or, if_true, e2, hdig.1]
    simp [signed_value]

/-- `strtol` makes a conversion exactly on the strings that start with an
integer. -/
theorem strtol_endptr_ne_zero_iff (T : Abi) (s : List Char) :
    (strtol T s).2 ≠ 0 ↔ starts_with_integer s := by
  constructor
  · intro h
    by_cases hds : ((s.dropWhile isspace).drop
        (if (s.dropWhile isspace).head? == some '-' || (s.dropWhile isspace).head? == some '+'
          then 1 else 0)).takeWhile isdigit = []
    · exact absurd (by unfold strtol; dsimp only; rw [if_pos hds]) h
    · have hs : s = s.takeWhile isspace ++ s.dropWhile isspace :=
        (List.takeWhile_append_dropWhile _ _).symm
      have hws : ∀ c ∈ s.takeWhile isspace, isspace c = true :=
        fun c hc => List.mem_takeWhile_imp hc
      generalize s.dropWhile isspace = s1 at hs hds
      generalize s.takeWhile isspace = ws at hs hws
      generalize hk : (if s1.head? == some '-' || s1.head? == some '+' then 1 else 0) = k at hds
      refine ⟨ws, s1.take k, (s1.drop k).takeWhile isdigit, (s1.drop k).dropWhile isdigit,
        ?_, hws, ?_, hds, fun c hc => List.mem_takeWhile_imp hc⟩
      · rw [List.append_assoc, List.append_assoc, List.takeWhile_append_dropWhile,
          List.take_append_drop]
        exact hs
      · subst hk
        cases s1 with
        | nil => simp
        | cons c t =>
          by_cases hm : c = '-'
          · subst hm; right; right; simp
          · by_cases hp : c = '+'
            · subst hp; right; left; simp
            · left; simp [hm, hp]
  · rintro ⟨ws, sg, ds, tl, rfl, hws, hsg, hne, hds⟩
    have hsplit : ds ++ tl = (ds ++ tl.takeWhile isdigit) ++ tl.dropWhile isdigit := by
      rw [List.append_assoc, List.takeWhile_append_dropWhile]
    have hrw : ws ++ sg ++ ds ++ tl =
        ws ++ sg ++ (ds ++ tl.takeWhile isdigit) ++ tl.dropWhile isdigit := by
      rw [List.append_assoc (ws ++ sg), hsplit, ← List.append_assoc (ws ++ sg)]
    rw [hrw, strtol_integer T ws sg (ds ++ tl.takeWhile isdigit) (tl.dropWhile isdigit) hws hsg
      (by simp [hne])
      (by
        intro c hc
        rw [List.mem_append] at hc
        rcases hc with hc | hc
        · exact hds c hc
        · exact List.mem_takeWhile_imp hc)
      (by
        intro c hc
        cases htl : tl.dropWhile isdigit with
        | nil => rw [htl] at hc; simp at hc
        | cons x t =>
          rw [htl] at hc
          simp at hc
          subst hc
          have := List.head_dropWhile_not isdigit tl (by rw [htl]; simp)
          simpa [htl] using this)]
    have : 0 < ds.length := List.length_pos.mpr hne
    simp only [List.length_append]
    omega

/-! ## Lemmas on `netcat_getport` -/

theorem to_u16_natCast (q : Nat) : to_u16 (q : Int) = q % 65536 := by
  unfold to_u16
  omega

theorem htons_lt (T : Abi) (x : Nat) : htons T x < 65536 := by
  unfold htons
  split <;> omega

theorem ntohs_htons (T : Abi) (x : Nat) (h : x < 65536) : ntohs T (htons T x) = x := by
  unfold ntohs htons
  split
  · omega
  · have h1 : x % 65536 = x := Nat.mod_eq_of_lt h
    have h2 : (x % 256 * 256 + x / 256) % 256 = x / 256 := by omega
    have h3 : (x % 256 * 256 + x / 256) % 65536 = x % 256 * 256 + x / 256 := by omega
    have h4 : (x % 256 * 256 + x / 256) / 256 = x % 256 := by omega
    rw [h1, h2, h3, h4]
    omega

theorem unknown_buf_length (n : Nat) (h : 10 ≤ n) : (unknown_buf n).length = n := by
  have hl : unknown.length = 9 := by decide
  simp only [unknown_buf, List.length_append, List.length_cons, List.length_replicate, hl]
  omega

theorem strcpy_unknown (n : Nat) (h : 10 ≤ n) :
    strcpy (memset0 n) unknown = .ok (unknown_buf n) := by
  have hc : cstr unknown = unknown := by decide
  have hl : unknown.length = 9 := by decide
  unfold strcpy
  simp only [hc, hl, memset0, List.length_replicate]
  rw [if_pos (by omega)]
  simp [unknown_buf]

theorem reset_port_ok (S : Sizes) (h : 10 ≤ S.port_name_size) :
    reset_port S = .ok (port_unset S) := by
  unfold reset_port
  rw [strcpy_unknown _ h]
  rfl

theorem strncpy_sizeof (buf src : List Char) :
    strncpy buf src buf.length = .ok (strncpy_bytes src buf.length) := by
  unfold strncpy
  simp

theorem cstr_snprintf_hu (k n : Nat) (hk : 6 ≤ k) (hn : n < 65536) :
    cstr (snprintf_hu (memset0 k) n) = (Nat.repr n).toList := by
  have hlen := repr_length_u16 n hn
  have hdig := (repr_spec n).2.1
  unfold snprintf_hu
  simp only [memset0, List.length_replicate]
  rw [if_neg (by omega), Nat.mod_eq_of_lt hn, List.take_of_length_le (by omega)]
  exact cstr_append_nul _ _ (fun c hc => isdigit_ne_nul c (hdig c hc))

theorem getport_num_ok (T : Abi) (S : Sizes) (db : ServiceDb) (udp : Bool) (p : Nat)
    (h : 10 ≤ S.port_name_size) (hdb : db.by_port_sound) (hp0 : p ≠ 0) (hp : p < 65536) :
    netcat_getport_num T S db udp p = .ok (true,
      port_of_number S (db.getservbyport (htons T p) (get_proto udp)) p,
      [DbCall.getservbyport (htons T p) (get_proto udp)]) := by
  unfold netcat_getport_num
  rw [reset_port_ok S h]
  simp only [bind, Except.bind, pure, Except.pure, if_neg hp0]
  cases hans : db.getservbyport (htons T p) (get_proto udp) with
  | none => simp [port_of_number, getport_end, port_unset]
  | some se =>
    have hport := hdb _ _ _ hans
    have hassert : p = ntohs T (to_u16 se.s_port) := by
      rw [hport, to_u16_natCast, Nat.mod_eq_of_lt (htons_lt T p), ntohs_htons T p hp]
    have hcopy := strncpy_sizeof (unknown_buf S.port_name_size) se.s_name
    rw [unknown_buf_length _ h] at hcopy
    simp only [ne_eq, hassert.symm, not_true_eq_false, if_false, port_unset,
      unknown_buf_length _ h, hcopy]
    simp [port_of_number, getport_end]

theorem strtol_digits (T : Abi) (s : List Char) (hne : s ≠ [])
    (hs : ∀ c ∈ s, isdigit c = true) :
    strtol T s = (min (decimal_value s : Int) T.long_max, s.length) := by
  have h := strtol_integer T [] [] s [] (by simp) (Or.inl rfl) hne hs (by simp)
  simpa [signed_value] using h

theorem getport_digits (T : Abi) (S : Sizes) (db : ServiceDb) (udp : Bool) (s : List Char)
    (port_num : Nat) (hlong : 65536 ≤ T.long_max) (hname : 10 ≤ S.port_name_size)
    (hs : ∀ c ∈ s, isdigit c = true) (hne : s ≠ []) :
    netcat_getport T S db udp (some s) port_num =
      if 1 ≤ decimal_value s ∧ decimal_value s ≤ 65535 then
        netcat_getport_num T S db udp (decimal_value s)
      else
        .ok (false, port_unset S, []) := by
  have hc : cstr s = s := cstr_of_no_nul s (fun c hc => isdigit_ne_nul c (hs c hc))
  unfold netcat_getport
  simp only [reset_port_ok S hname, hc, strtol_digits T s hne hs, bind, Except.bind, pure,
    Except.pure, if_neg hne, List.drop_length, if_true]
  by_cases hv : 1 ≤ decimal_value s ∧ decimal_value s ≤ 65535
  · have h1 : (0 : Int) < min (decimal_value s : Int) T.long_max ∧
        min (decimal_value s : Int) T.long_max < 65536 := by omega
    have h2 : to_u16 (min (decimal_value s : Int) T.long_max) = decimal_value s := by
      unfold to_u16
      omega
    rw [if_pos h1, if_pos hv, h2]
  · have h1 : ¬ ((0 : Int) < min (decimal_value s : Int) T.long_max ∧
        min (decimal_value s : Int) T.long_max < 65536) := by omega
    rw [if_neg h1, if_neg hv]

theorem getport_empty (T : Abi) (S : Sizes) (db : ServiceDb) (udp : Bool) (str : List Char)
    (port_num : Nat) (hname : 10 ≤ S.port_name_size) (he : cstr str = []) :
    netcat_getport T S db udp (some str) port_num =
      .ok (false, port_unset S, []) := by
  unfold netcat_getport
  simp only [reset_port_ok S hname, he, bind, Except.bind, pure, Except.pure, if_true]

theorem cstr_mixed (ws sg ds tl : List Char) (c : Char)
    (hws : ∀ x ∈ ws, isspace x = true) (hsg : sg = [] ∨ sg = ['+'] ∨ sg = ['-'])
    (hds : ∀ x ∈ ds, isdigit x = true) (hc : c ≠ NUL) :
    cstr (ws ++ sg ++ ds ++ c :: tl) = ws ++ sg ++ ds ++ c :: cstr tl := by
  have hpre : ∀ x ∈ ws ++ sg ++ ds, (fun c => c != NUL) x = true := by
    intro x hx
    rw [List.mem_append, List.mem_append] at hx
    have : x ≠ NUL := by
      rcases hx with (hx | hx) | hx
      · exact isspace_ne_nul x (hws x hx)
      · rcases hsg with h | h | h <;> subst h <;> simp at hx <;> subst hx <;> decide
      · exact isdigit_ne_nul x (hds x hx)
    simpa using this
  unfold cstr
  rw [List.takeWhile_append_of_pos hpre, List.takeWhile_cons]
  simp [hc]

theorem getport_mixed (T : Abi) (S : Sizes) (db : ServiceDb) (udp : Bool) (port_num : Nat)
    (hname : 10 ≤ S.port_name_size) (ws sg ds tl : List Char) (c : Char)
    (hws : ∀ x ∈ ws, isspace x = true) (hsg : sg = [] ∨ sg = ['+'] ∨ sg = ['-'])
    (hne : ds ≠ []) (hds : ∀ x ∈ ds, isdigit x = true) (hcd : isdigit c = false)
    (hc : c ≠ NUL) :
    netcat_getport T S db udp (some (ws ++ sg ++ ds ++ c :: tl)) port_num =
      .ok (false, port_unset S, []) := by
  have hstr := strtol_integer T ws sg ds (c :: cstr tl) hws hsg hne hds
    (by intro x hx; simp at hx; subst hx; exact hcd)
  have hlen : 0 < ds.length := List.length_pos.mpr hne
  have hdrop : (ws ++ sg ++ ds ++ c :: cstr tl).drop (ws.length + sg.length + ds.length)
      = c :: cstr tl := by
    have : ws.length + sg.length + ds.length = (ws ++ sg ++ ds).length := by
      simp only [List.length_append]
    rw [this, List.drop_left]
  unfold netcat_getport
  simp only [reset_port_ok S hname, cstr_mixed ws sg ds tl c hws hsg hds hc, hstr, hdrop, bind,
    Except.bind, pure, Except.pure]
  rw [if_neg (by simp), if_neg (by simp), if_pos (by omega)]

theorem getport_name (T : Abi) (S : Sizes) (db : ServiceDb) (udp : Bool) (port_num : Nat)
    (hname : 10 ≤ S.port_name_size) (s : List Char) (hne : cstr s ≠ [])
    (hint : ¬ starts_with_integer (cstr s)) :
    netcat_getport T S db udp (some s) port_num =
      .ok ((port_of_name T S (db.getservbyname (cstr s) (get_proto udp))).1,
        (port_of_name T S (db.getservbyname (cstr s) (get_proto udp))).2,
        [DbCall.getservbyname (cstr s) (get_proto udp)]) := by
  have hz : (strtol T (cstr s)).2 = 0 := by
    by_contra h
    exact hint ((strtol_endptr_ne_zero_iff T _).mp h)
  have hpair : strtol T (cstr s) = ((strtol T (cstr s)).1, 0) := by rw [← hz]
  generalize (strtol T (cstr s)).1 = port at hpair
  unfold netcat_getport
  simp only [reset_port_ok S hname, bind, Except.bind, pure, Except.pure, if_neg hne, hpair,
    List.drop_zero, ne_eq, not_true_eq_false, if_false]
  cases hans : db.getservbyname (cstr s) (get_proto udp) with
  | none => simp [port_of_name]
  | some se =>
    have hcopy := strncpy_sizeof (unknown_buf S.port_name_size) se.s_name
    rw [unknown_buf_length _ hname] at hcopy
    simp only [port_unset, unknown_buf_length _ hname, hcopy]
    simp [port_of_name, getport_end]

/-! ## The embedding on concrete inputs -/

theorem strtol_samples :
    strtol lp64 "  -12abc".toList = (-12, 5) ∧ strtol lp64 "+7".toList = (7, 2) ∧
    strtol lp64 "abc".toList = (0, 0) ∧ strtol lp64 "-".toList = (0, 0) ∧
    strtol lp64 "0x50".toList = (0, 1) ∧
    strtol lp64 "99999999999999999999".toList = (9223372036854775807, 20) := by
  decide

theorem inet_samples :
    inet_ntoa { s_addr := 3221225985 } = "192.0.2.1".toList ∧
    inet_pton4 "192.0.2.1".toList = some { s_addr := 3221225985 } ∧
    inet_pton4 "256.0.0.1".toList = none ∧ inet_pton4 "1.2.3".toList = none ∧
    inet_pton4 "01.2.3.4".toList = none ∧ inet_pton4 "example.org".toList = none := by
  decide

theorem getport_samples :
    (netcat_getport lp64 sizes0 (sample_db lp64) false (some "http".toList) 0).map
        (fun r => (r.1, r.2.1.num, cstr r.2.1.name, cstr r.2.1.ascnum)) =
      .ok (true, 80, "http".toList, "80".toList) ∧
    (netcat_getport lp64 sizes0 (sample_db lp64) false (some "53".toList) 0).map
        (fun r => (r.1, r.2.1.num, cstr r.2.1.name, cstr r.2.1.ascnum)) =
      .ok (true, 53, "domain".toList, "53".toList) ∧
    (netcat_getport lp64 sizes0 (sample_db lp64) false (some "65536".toList) 0).map
        (fun r => (r.1, r.2.2)) = .ok (false, []) ∧
    (netcat_getport lp64 sizes0 (sample_db lp64) false (some "nosuch".toList) 0).map
        (fun r => (r.1, r.2.2)) =
      .ok (false, [DbCall.getservbyname "nosuch".toList "tcp".toList]) ∧
    (netcat_getport lp64 sizes0 (sample_db lp64) false none 4000).map
        (fun r => (r.1, r.2.1.num, cstr r.2.1.name, cstr r.2.1.ascnum)) =
      .ok (true, 4000, "(unknown)".toList, "4000".toList) := by
  refine ⟨?_, ?_, ?_, ?_, ?_⟩ <;> rfl

/-! ## Properties of `netcat_getport` -/

theorem sample_db_sound (T : Abi) : (sample_db T).by_port_sound := by
  intro q proto se h
  simp only [sample_db, Option.map_eq_some'] at h
  obtain ⟨e, he, rfl⟩ := h
  have := List.find?_some he
  simpa using this

/-- C1: on a string of decimal digits `netcat_getport` succeeds exactly when the
string is non-empty and its base-10 value lies in 1..65535, and then `dst.num`
is that value and `dst.ascnum` its decimal rendering; the rendering of every
`p` in 1..65535 resolves to `p`, and `""` and `"0"` fail. The service database
may answer the reverse lookup in any way its contract allows. -/
theorem getport_decimal_string (T : Abi) (S : Sizes) (db : ServiceDb) (udp : Bool)
    (hlong : 65536 ≤ T.long_max) (hname : 10 ≤ S.port_name_size) (hasc : 6 ≤ S.ascnum_size)
    (hdb : db.by_port_sound) :
    (∀ (s : List Char) (port_num : Nat), (∀ c ∈ s, isdigit c = true) →
      ∃ ret dst calls, netcat_getport T S db udp (some s) port_num = .ok (ret, dst, calls) ∧
        (ret = true ↔ s ≠ [] ∧ 1 ≤ decimal_value s ∧ decimal_value s ≤ 65535) ∧
        (ret = true → dst.num = decimal_value s ∧
          cstr dst.ascnum = (Nat.repr (decimal_value s)).toList)) ∧
    (∀ p port_num : Nat, 1 ≤ p → p ≤ 65535 →
      ∃ dst calls,
        netcat_getport T S db udp (some (Nat.repr p).toList) port_num = .ok (true, dst, calls) ∧
        dst.num = p ∧ cstr dst.ascnum = (Nat.repr p).toList) ∧
    (∀ port_num : Nat, ∃ dst calls,
      netcat_getport T S db udp (some "".toList) port_num = .ok (false, dst, calls)) ∧
    (∀ port_num : Nat, ∃ dst calls,
      netcat_getport T S db udp (some "0".toList) port_num = .ok (false, dst, calls)) := by
  have main : ∀ (s : List Char) (port_num : Nat), (∀ c ∈ s, isdigit c = true) →
      ∃ ret dst calls, netcat_getport T S db udp (some s) port_num = .ok (ret, dst, calls) ∧
        (ret = true ↔ s ≠ [] ∧ 1 ≤ decimal_value s ∧ decimal_value s ≤ 65535) ∧
        (ret = true → dst.num = decimal_value s ∧
          cstr dst.ascnum = (Nat.repr (decimal_value s)).toList) := by
    intro s port_num hs
    by_cases hne : s = []
    · subst hne
      exact ⟨false, port_unset S, [], getport_empty T S db udp [] port_num hname (by decide),
        by simp, by simp⟩
    · rw [getport_digits T S db udp s port_num hlong hname hs hne]
      by_cases hv : 1 ≤ decimal_value s ∧ decimal_value s ≤ 65535
      · rw [if_pos hv, getport_num_ok T S db udp _ hname hdb (by omega) (by omega)]
        refine ⟨true, _, _, rfl, by simp [hne, hv], fun _ => ⟨rfl, ?_⟩⟩
        exact cstr_snprintf_hu _ _ hasc (by omega)
      · rw [if_neg hv]
        exact ⟨false, _, _, rfl, by simp [hv], by simp⟩
  refine ⟨main, ?_, ?_, ?_⟩
  · intro p port_num h1 h2
    obtain ⟨hne, hdig, hval⟩ := repr_spec p
    obtain ⟨ret, dst, calls, heq, hiff, hres⟩ := main (Nat.repr p).toList port_num hdig
    have hret : ret = true := hiff.mpr ⟨hne, by omega, by omega⟩
    subst hret
    have := hres rfl
    rw [hval] at this
    exact ⟨dst, calls, heq, this.1, this.2⟩
  · intro port_num
    exact ⟨_, _, getport_empty T S db udp _ port_num hname (by decide)⟩
  · intro port_num
    obtain ⟨ret, dst, calls, heq, hiff, -⟩ := main "0".toList port_num (by decide)
    have hret : ret = false := by
      cases ret
      · rfl
      · have := (hiff.mp rfl).2.1
        revert this
        decide
    subst hret
    exact ⟨dst, calls, heq⟩

/-- Witness of C1: on a 64-bit target with the sample sizes and services file,
the string `"80"` resolves to port 80 with text `"80"`. -/
theorem getport_decimal_string_witness :
    65536 ≤ lp64.long_max ∧ 10 ≤ sizes0.port_name_size ∧ 6 ≤ sizes0.ascnum_size ∧
    (sample_db lp64).by_port_sound ∧
    ∃ dst calls,
      netcat_getport lp64 sizes0 (sample_db lp64) false (some (Nat.repr 80).toList) 0
        = .ok (true, dst, calls) ∧
      dst.num = 80 ∧ cstr dst.ascnum = (Nat.repr 80).toList :=
  ⟨by decide, by decide, by decide, sample_db_sound lp64,
    (getport_decimal_string lp64 sizes0 (sample_db lp64) false (by decide) (by decide)
      (by decide) (sample_db_sound lp64)).2.1 80 0 (by decide) (by decide)⟩

/-- C3: a string made of white space, an optional sign, a run of digits and at
least one further character is refused without any lookup in the service
database; a non-empty string that does not start with an integer goes to
`getservbyname`, which is the only lookup made. -/
theorem getport_mixed_string (T : Abi) (S : Sizes) (db : ServiceDb) (udp : Bool)
    (port_num : Nat) (hname : 10 ≤ S.port_name_size) :
    (∀ (ws sg ds tl : List Char) (c : Char),
      (∀ x ∈ ws, isspace x = true) → (sg = [] ∨ sg = ['+'] ∨ sg = ['-']) →
      ds ≠ [] → (∀ x ∈ ds, isdigit x = true) → isdigit c = false → c ≠ NUL →
      ∃ dst, netcat_getport T S db udp (some (ws ++ sg ++ ds ++ c :: tl)) port_num
        = .ok (false, dst, [])) ∧
    (∀ s : List Char, cstr s ≠ [] → ¬ starts_with_integer (cstr s) →
      ∃ ret dst, netcat_getport T S db udp (some s) port_num
        = .ok (ret, dst, [DbCall.getservbyname (cstr s) (get_proto udp)])) := by
  constructor
  · intro ws sg ds tl c hws hsg hne hds hcd hc
    exact ⟨_, getport_mixed T S db udp port_num hname ws sg ds tl c hws hsg hne hds hcd hc⟩
  · intro s hne hint
    exact ⟨_, _, getport_name T S db udp port_num hname s hne hint⟩

/-- Witness of C3: `"80abc"` is refused with no lookup, and `"http"` is looked
up by name. -/
theorem getport_mixed_string_witness :
    10 ≤ sizes0.port_name_size ∧
    (∃ dst, netcat_getport lp64 sizes0 (sample_db lp64) false (some "80abc".toList) 0
      = .ok (false, dst, [])) ∧
    (∃ ret dst, netcat_getport lp64 sizes0 (sample_db lp64) false (some "http".toList) 0
      = .ok (ret, dst, [DbCall.getservbyname "http".toList "tcp".toList])) :=
  ⟨by decide,
    (getport_mixed_string lp64 sizes0 (sample_db lp64) false 0 (by decide)).1
      [] [] "80".toList "bc".toList 'a' (by decide) (by decide) (by decide) (by decide)
      (by decide) (by decide),
    (getport_mixed_string lp64 sizes0 (sample_db lp64) false 0 (by decide)).2
      "http".toList (by decide)
      (fun h => absurd ((strtol_endptr_ne_zero_iff lp64 _).mpr h) (by decide))⟩

/-- C2 fails on the lookup by name: the services entry `spr-itunes 0/tcp` makes
`netcat_getport` return success with `dst.num = 0` and text `"0"`. -/
theorem getport_name_port_zero :
    ∃ dst calls,
      netcat_getport lp64 sizes0 (sample_db lp64) false (some "spr-itunes".toList) 0
        = .ok (true, dst, calls) ∧
      dst.num = 0 ∧ cstr dst.ascnum = "0".toList ∧ cstr dst.name = "spr-itunes".toList :=
  ⟨(port_of_name lp64 sizes0 (some { s_name := "spr-itunes".toList, s_port := 0 })).2,
    [DbCall.getservbyname "spr-itunes".toList "tcp".toList], by rfl, by decide, by decide,
    by decide⟩

/-! ## Lemmas on `netcat_resolvehost` -/

theorem reset_host_ok (S : Sizes) (h : 10 ≤ S.host_name_size) :
    reset_host S = .ok (host_unset S) := by
  unfold reset_host
  rw [strcpy_unknown _ h]
  rfl

theorem set_at_length {α : Type} (p t : List α) (x y : α) :
    (p ++ x :: t).set p.length y = p ++ y :: t := by
  induction p with
  | nil => rfl
  | cons a p ih => simp [ih]

theorem getD_at_length {α : Type} (p t : List α) (x d : α) :
    (p ++ x :: t).getD p.length d = x := by
  induction p with
  | nil => rfl
  | cons a p ih => simpa using ih

theorem strncpy_memset0 (src : List Char) (n : Nat) :
    strncpy (memset0 n) src n = .ok (strncpy_bytes src n) := by
  have h := strncpy_sizeof (memset0 n) src
  simpa [memset0] using h

theorem fill_addrs_spec (S : Sizes) (name : List Char) :
    ∀ (l : List in_addr) (k : Nat) (pi : List in_addr) (pa : List (List Char)),
      pi.length + k = 8 → pa.length = pi.length →
      fill_addrs S l pi.length
          { name := name
            addrs := pa ++ List.replicate k (memset0 S.addr_size)
            iaddrs := pi ++ List.replicate k { s_addr := 0 } } =
        .ok
          { name := name
            addrs := pa ++ (l.take k).map (addr_row S) ++
              List.replicate (k - (l.take k).length) (memset0 S.addr_size)
            iaddrs := pi ++ l.take k ++
              List.replicate (k - (l.take k).length) { s_addr := 0 } } := by
  intro l
  induction l with
  | nil =>
    intro k pi pa _ _
    simp [fill_addrs, pure, Except.pure]
  | cons a rest ih =>
    intro k pi pa hk hpa
    cases k with
    | zero =>
      have h8 : ¬ pi.length < 8 := by omega
      simp [fill_addrs, h8, pure, Except.pure]
    | succ k =>
      have h8 : pi.length < 8 := by omega
      have hset : (pi ++ List.replicate (k + 1) ({ s_addr := 0 } : in_addr)).set pi.length a
          = (pi ++ [a]) ++ List.replicate k { s_addr := 0 } := by
        rw [List.replicate_succ, set_at_length]
        simp
      have hget : (pa ++ List.replicate (k + 1) (memset0 S.addr_size)).getD pi.length []
          = memset0 S.addr_size := by
        rw [List.replicate_succ, ← hpa, getD_at_length]
      have hset2 : (pa ++ List.replicate (k + 1) (memset0 S.addr_size)).set pi.length
          (addr_row S a) = (pa ++ [addr_row S a]) ++ List.replicate k (memset0 S.addr_size) := by
        rw [List.replicate_succ, ← hpa, set_at_length]
        simp
      have hih := ih k (pi ++ [a]) (pa ++ [addr_row S a])
        (by simp only [List.length_append, List.length_singleton]; omega)
        (by simp only [List.length_append, List.length_singleton]; omega)
      have hlen : (pi ++ [a]).length = pi.length + 1 := by simp
      rw [hlen] at hih
      unfold fill_addrs
      simp only [if_pos h8, hget, strncpy_memset0, bind, Except.bind, hset]
      rw [show strncpy_bytes (inet_ntoa a) S.addr_size = addr_row S a from rfl, hset2, hih]
      simp [List.take_succ_cons, Nat.add_sub_add_right]

theorem copy_host_name_ok (S : Sizes) (dst : netcat_host) (c : List Char)
    (h2 : 2 ≤ S.MAXHOSTNAMELEN) (hn : S.MAXHOSTNAMELEN - 2 ≤ dst.name.length) :
    copy_host_name S dst (some c) = .ok { dst with
      name := strncpy_bytes c (S.MAXHOSTNAMELEN - 2) ++ dst.name.drop (S.MAXHOSTNAMELEN - 2) } := by
  unfold copy_host_name strncpy
  simp only [deref, bind, Except.bind, pure, Except.pure, if_neg (by omega : ¬ S.MAXHOSTNAMELEN < 2),
    if_pos hn]

theorem unknown_buf_drop (size n : Nat) (hs : 10 ≤ size) (h9 : 9 ≤ n) (hn : n ≤ size) :
    (unknown_buf size).drop n = List.replicate (size - n) NUL := by
  have hl : unknown.length = 9 := by decide
  have hb : unknown_buf size = unknown ++ List.replicate (size - 9) NUL := by
    unfold unknown_buf
    rw [show size - 9 = (size - 10) + 1 by omega, List.replicate_succ]
  rw [hb, List.drop_append_eq_append_drop, List.drop_of_length_le (by omega), hl,
    List.drop_replicate]
  simp only [List.nil_append]
  congr 1
  omega

/-- The name buffer after `strncpy(dst->name, c, n)` on the reset descriptor
holds the first `n` characters of `c`, then NULs. -/
theorem host_name_buf (size n : Nat) (c : List Char) (hs : 10 ≤ size) (h9 : 9 ≤ n)
    (hn : n ≤ size) :
    strncpy_bytes c n ++ (unknown_buf size).drop n =
      (cstr c).take n ++ List.replicate (size - ((cstr c).take n).length) NUL := by
  have hlen : ((cstr c).take n).length ≤ n := by simp
  rw [unknown_buf_drop size n hs h9 hn]
  unfold strncpy_bytes
  rw [List.append_assoc, List.append_replicate_replicate]
  congr 2
  omega

theorem repr_byte (n : Nat) (h : n < 256) :
    (Nat.repr n).toList.length ≤ 3 ∧ ∀ c ∈ (Nat.repr n).toList, c ≠ NUL := by
  constructor
  · have h3 : n < 10 ^ 3 := by norm_num; omega
    exact Nat.repr_length n 3 (by decide) h3
  · intro c hc
    exact isdigit_ne_nul c ((repr_spec n).2.1 c hc)

theorem inet_ntoa_spec (a : in_addr) :
    (inet_ntoa a).length ≤ 15 ∧ ∀ c ∈ inet_ntoa a, c ≠ NUL := by
  have h1 := repr_byte (a.s_addr / 16777216 % 256) (Nat.mod_lt _ (by decide))
  have h2 := repr_byte (a.s_addr / 65536 % 256) (Nat.mod_lt _ (by decide))
  have h3 := repr_byte (a.s_addr / 256 % 256) (Nat.mod_lt _ (by decide))
  have h4 := repr_byte (a.s_addr % 256) (Nat.mod_lt _ (by decide))
  have hdot : '.' ≠ NUL := by decide
  unfold inet_ntoa
  constructor
  · simp only [List.length_append, List.length_cons]
    omega
  · intro c hc
    simp only [List.mem_append, List.mem_cons] at hc
    rcases hc with ((hc | hc | hc) | hc | hc) | hc | hc
    · exact h1.2 c hc
    · rw [hc]; exact hdot
    · exact h2.2 c hc
    · rw [hc]; exact hdot
    · exact h3.2 c hc
    · rw [hc]; exact hdot
    · exact h4.2 c hc

/-- With rows of at least 16 bytes, a row holds the whole text of its address
and its terminator. -/
theorem addr_row_eq (S : Sizes) (a : in_addr) (h : 16 ≤ S.addr_size) :
    addr_row S a = inet_ntoa a ++ List.replicate (S.addr_size - (inet_ntoa a).length) NUL := by
  have hs := inet_ntoa_spec a
  unfold addr_row strncpy_bytes
  rw [cstr_of_no_nul _ hs.2, List.take_of_length_le (by omega)]

theorem reverse_warning_query (dst : netcat_host) (i : Nat) (ans : Option hostent) :
    (reverse_warning dst i ans).filterMap reverse_query = [] := by
  unfold reverse_warning
  split
  · rfl
  · split
    · rfl
    · split <;> rfl

/-- The reverse lookups of lines 69-81 are made for the stored addresses, in
order, up to the first zero address, whatever the lookups answer. -/
theorem reverse_checks_queries {σ : Type} (R : Resolver σ) (dst : netcat_host)
    (hlen : dst.iaddrs.length = 8) :
    ∀ (left : Nat) (w : σ), left ≤ 8 →
      (reverse_checks R dst left w).1.filterMap reverse_query =
        (dst.iaddrs.drop (8 - left)).takeWhile (fun a => decide (a.s_addr ≠ 0)) := by
  intro left
  induction left with
  | zero =>
    intro w _
    simp [reverse_checks, List.drop_of_length_le (Nat.le_of_eq hlen)]
  | succ left ih =>
    intro w hle
    have hi : 8 - (left + 1) < dst.iaddrs.length := by omega
    have hdrop : dst.iaddrs.drop (8 - (left + 1)) =
        dst.iaddrs.getD (8 - (left + 1)) { s_addr := 0 } :: dst.iaddrs.drop (8 - left) := by
      rw [List.getD_eq_getElem _ _ hi, show 8 - left = 8 - (left + 1) + 1 by omega]
      exact List.drop_eq_getElem_cons hi
    rw [hdrop]
    unfold reverse_checks
    simp only
    by_cases hz : (dst.iaddrs.getD (8 - (left + 1)) { s_addr := 0 }).s_addr = 0
    · rw [if_neg (not_not.mpr hz), List.takeWhile_cons, if_neg (by simpa using hz)]
      rfl
    · rw [if_pos hz, List.takeWhile_cons, if_pos (by simpa using hz)]
      simp only [List.filterMap_cons, reverse_query, List.filterMap_append,
        reverse_warning_query, List.nil_append]
      rw [ih _ (by omega)]
      rfl

theorem host_of_lookup_length (S : Sizes) (c : List Char) (l : List in_addr) :
    (host_of_lookup S c l).iaddrs.length = 8 := by
  simp only [host_of_lookup, List.length_append, List.length_take, List.length_replicate]
  omega

/-- The run of `netcat_resolvehost` on a name that is not numeric and that the
forward lookup resolves. -/
theorem resolvehost_lookup {σ : Type} (S : Sizes) (R : Resolver σ) (opt_verbose : Bool) (w : σ)
    (name c : List Char) (l : List in_addr)
    (h0 : 10 ≤ S.host_name_size) (h1 : 11 ≤ S.MAXHOSTNAMELEN)
    (h2 : S.MAXHOSTNAMELEN - 2 ≤ S.host_name_size)
    (hnum : R.inet_pton (cstr name) = none)
    (hfwd : (R.gethostbyname w (cstr name)).1 = some { h_name := some c, h_addr_list := l }) :
    netcat_resolvehost S R false opt_verbose w (some name) =
      .ok (true, host_of_lookup S c l,
        if opt_verbose then
          HostEvent.gethostbyname (cstr name) ::
            (reverse_checks R (host_of_lookup S c l) 8 (R.gethostbyname w (cstr name)).2).1
        else [HostEvent.gethostbyname (cstr name)],
        if opt_verbose then
          (reverse_checks R (host_of_lookup S c l) 8 (R.gethostbyname w (cstr name)).2).2
        else (R.gethostbyname w (cstr name)).2) := by
  have hcopy := copy_host_name_ok S (host_unset S) c (by omega)
    (by simp only [host_unset]; rw [unknown_buf_length _ h0]; exact h2)
  have hbuf := host_name_buf S.host_name_size (S.MAXHOSTNAMELEN - 2) c h0 (by omega) h2
  have hfill := fill_addrs_spec S
    ((cstr c).take (S.MAXHOSTNAMELEN - 2) ++
      List.replicate (S.host_name_size - ((cstr c).take (S.MAXHOSTNAMELEN - 2)).length) NUL)
    l 8 [] [] rfl rfl
  simp only [List.nil_append, List.length_nil] at hfill
  unfold netcat_resolvehost
  simp only [bind, Except.bind, pure, Except.pure, reset_host_ok S h0, hnum, hfwd, hcopy,
    Bool.false_eq_true, if_false]
  simp only [host_unset, hbuf, hfill]
  cases opt_verbose <;> simp [host_of_lookup]

/-! ## Properties of `netcat_resolvehost` -/

/-- C5: with the numeric-only flag set, a name that `inet_pton` does not accept
as an IPv4 literal makes `netcat_resolvehost` return failure with no lookup
made (the trace is empty and the resolver state untouched), whatever the
verbose flag. -/
theorem resolvehost_numeric_only {σ : Type} (S : Sizes) (R : Resolver σ) (opt_verbose : Bool)
    (w : σ) (name : List Char) (h0 : 10 ≤ S.host_name_size)
    (hnum : R.inet_pton (cstr name) = none) :
    netcat_resolvehost S R true opt_verbose w (some name) = .ok (false, host_unset S, [], w) := by
  unfold netcat_resolvehost
  simp only [bind, Except.bind, pure, Except.pure, reset_host_ok S h0, hnum, if_true]

/-- Witness of C5: `not-a-number` with the numeric-only flag. -/
theorem resolvehost_numeric_only_witness :
    10 ≤ sizes0.host_name_size ∧
    sample_resolver.inet_pton (cstr "not-a-number".toList) = none ∧
    netcat_resolvehost sizes0 sample_resolver true true 0 (some "not-a-number".toList)
      = .ok (false, host_unset sizes0, [], 0) :=
  ⟨by decide, by decide,
    resolvehost_numeric_only sizes0 sample_resolver true 0 "not-a-number".toList (by decide)
      (by decide)⟩

/-- C6: when the name is not numeric and the forward lookup answers a name `c`
and addresses `l`, `netcat_resolvehost` succeeds; `dst.name` holds `c` (cut to
`MAXHOSTNAMELEN - 2` characters), the first `min l.length 8` entries of
`dst.iaddrs` and `dst.addrs` hold the first addresses of `l` in order, in
binary and as dotted-decimal text, and the other entries are zero. -/
theorem resolvehost_stores_addresses {σ : Type} (S : Sizes) (R : Resolver σ)
    (opt_verbose : Bool) (w : σ) (name c : List Char) (l : List in_addr)
    (h0 : 10 ≤ S.host_name_size) (h1 : 11 ≤ S.MAXHOSTNAMELEN)
    (h2 : S.MAXHOSTNAMELEN - 2 ≤ S.host_name_size) (h3 : 16 ≤ S.addr_size)
    (hnum : R.inet_pton (cstr name) = none)
    (hfwd : (R.gethostbyname w (cstr name)).1 = some { h_name := some c, h_addr_list := l }) :
    ∃ dst ev w2,
      netcat_resolvehost S R false opt_verbose w (some name) = .ok (true, dst, ev, w2) ∧
      cstr dst.name = (cstr c).take (S.MAXHOSTNAMELEN - 2) ∧
      dst.iaddrs = l.take 8 ++ List.replicate (8 - min l.length 8) { s_addr := 0 } ∧
      dst.addrs =
        (l.take 8).map
          (fun a => inet_ntoa a ++ List.replicate (S.addr_size - (inet_ntoa a).length) NUL) ++
        List.replicate (8 - min l.length 8) (memset0 S.addr_size) ∧
      dst.addrs.map cstr =
        (l.take 8).map inet_ntoa ++ List.replicate (8 - min l.length 8) [] ∧
      dst.iaddrs.length = 8 ∧ dst.addrs.length = 8 := by
  have hlen : (l.take 8).length = min l.length 8 := by
    rw [List.length_take, Nat.min_comm]
  have hrows : (l.take 8).map (addr_row S) =
      (l.take 8).map
        (fun a => inet_ntoa a ++ List.replicate (S.addr_size - (inet_ntoa a).length) NUL) :=
    List.map_congr_left (fun a _ => addr_row_eq S a h3)
  have hz : cstr (memset0 S.addr_size) = [] := by
    have := cstr_append_replicate [] S.addr_size (by simp)
    simpa [memset0] using this
  refine ⟨_, _, _, resolvehost_lookup S R opt_verbose w name c l h0 h1 h2 hnum hfwd, ?_, ?_, ?_,
    ?_, ?_, ?_⟩
  · exact cstr_append_replicate _ _
      (fun x hx => cstr_no_nul c x (List.mem_of_mem_take hx))
  · simp only [host_of_lookup, hlen]
  · simp only [host_of_lookup, hlen, hrows]
  · simp only [host_of_lookup, hlen, hrows, List.map_append, List.map_map, List.map_replicate, hz]
    congr 1
    apply List.map_congr_left
    intro a _
    exact cstr_append_replicate _ _ (inet_ntoa_spec a).2
  · exact host_of_lookup_length S c l
  · simp only [host_of_lookup, List.length_append, List.length_map, List.length_take,
      List.length_replicate]
    omega

/-- Witness of C6: `example.org` resolved by the sample resolver. -/
theorem resolvehost_stores_addresses_witness :
    10 ≤ sizes0.host_name_size ∧ 11 ≤ sizes0.MAXHOSTNAMELEN ∧
    sizes0.MAXHOSTNAMELEN - 2 ≤ sizes0.host_name_size ∧ 16 ≤ sizes0.addr_size ∧
    sample_resolver.inet_pton (cstr "example.org".toList) = none ∧
    ∃ dst ev w2,
      netcat_resolvehost sizes0 sample_resolver false false 0 (some "example.org".toList)
        = .ok (true, dst, ev, w2) ∧
      cstr dst.name = "example.org".toList ∧
      dst.iaddrs.map (fun a => a.s_addr) = [167772162, 3221225985, 0, 0, 0, 0, 0, 0] ∧
      dst.addrs.map cstr =
        ["10.0.0.2".toList, "192.0.2.1".toList, [], [], [], [], [], []] := by
  refine ⟨by decide, by decide, by decide, by decide, by decide, ?_⟩
  obtain ⟨dst, ev, w2, hrun, hname, hbin, -, htxt, -, -⟩ :=
    resolvehost_stores_addresses sizes0 sample_resolver false 0 "example.org".toList
      "example.org".toList [{ s_addr := 167772162 }, { s_addr := 3221225985 }]
      (by decide) (by decide) (by decide) (by decide) (by decide) (by decide)
  exact ⟨dst, ev, w2, hrun, hname.trans (by decide), by rw [hbin]; decide,
    htxt.trans (by decide)⟩

/-- C7: when the name is not numeric and the forward lookup succeeds, the run
with the verbose flag returns success with the same descriptor as the run
without it, whatever the reverse lookups answer; and the reverse lookups are
made for every stored address up to the first zero address, so none is
skipped because an earlier one failed. -/
theorem resolvehost_verbose_advisory {σ : Type} (S : Sizes) (R : Resolver σ) (w : σ)
    (name c : List Char) (l : List in_addr)
    (h0 : 10 ≤ S.host_name_size) (h1 : 11 ≤ S.MAXHOSTNAMELEN)
    (h2 : S.MAXHOSTNAMELEN - 2 ≤ S.host_name_size)
    (hnum : R.inet_pton (cstr name) = none)
    (hfwd : (R.gethostbyname w (cstr name)).1 = some { h_name := some c, h_addr_list := l }) :
    ∃ dst ev w2,
      netcat_resolvehost S R false false w (some name) =
        .ok (true, dst, [HostEvent.gethostbyname (cstr name)],
          (R.gethostbyname w (cstr name)).2) ∧
      netcat_resolvehost S R false true w (some name) =
        .ok (true, dst, HostEvent.gethostbyname (cstr name) :: ev, w2) ∧
      ev.filterMap reverse_query = dst.iaddrs.takeWhile (fun a => decide (a.s_addr ≠ 0)) := by
  refine ⟨host_of_lookup S c l, _, _,
    resolvehost_lookup S R false w name c l h0 h1 h2 hnum hfwd,
    resolvehost_lookup S R true w name c l h0 h1 h2 hnum hfwd, ?_⟩
  have := reverse_checks_queries R (host_of_lookup S c l) (host_of_lookup_length S c l) 8
    (R.gethostbyname w (cstr name)).2 (Nat.le_refl 8)
  simpa using this

/-- Witness of C7: for `example.org` the reverse lookup of the first address
fails and the second address is still looked up. -/
theorem resolvehost_verbose_advisory_witness :
    10 ≤ sizes0.host_name_size ∧ 11 ≤ sizes0.MAXHOSTNAMELEN ∧
    sizes0.MAXHOSTNAMELEN - 2 ≤ sizes0.host_name_size ∧
    (sample_resolver.gethostbyaddr 1 { s_addr := 167772162 }).1 = none ∧
    ∃ dst ev w2,
      netcat_resolvehost sizes0 sample_resolver false false 0 (some "example.org".toList) =
        .ok (true, dst, [HostEvent.gethostbyname "example.org".toList], 1) ∧
      netcat_resolvehost sizes0 sample_resolver false true 0 (some "example.org".toList) =
        .ok (true, dst, HostEvent.gethostbyname "example.org".toList :: ev, w2) ∧
      ev.filterMap reverse_query = dst.iaddrs.takeWhile (fun a => decide (a.s_addr ≠ 0)) :=
  ⟨by decide, by decide, by decide, by decide,
    resolvehost_verbose_advisory sizes0 sample_resolver 0 "example.org".toList
      "example.org".toList [{ s_addr := 167772162 }, { s_addr := 3221225985 }]
      (by decide) (by decide) (by decide) (by decide) (by decide)⟩

/-! ## Properties of the listening socket -/

/-- C8 fails: on a system where every call succeeds, the `setsockopt` call
made between `socket` and `bind` gives `SO_REUSEADDR` the value 0, which
leaves address reuse off. -/
theorem new_listen_reuseaddr_zero :
    netcat_socket_new_listen lp64 sample_kernel 3 { s_addr := 0 } 12345 =
      (3,
        [SysCall.socket SysConst.PF_INET SysConst.SOCK_STREAM 0,
         SysCall.setsockopt 3 SysConst.SOL_SOCKET SysConst.SO_REUSEADDR 0,
         SysCall.bind 3
           { sin_family := SysConst.AF_INET, sin_port := 14640, sin_addr := { s_addr := 0 } },
         SysCall.listen 3 4],
        4) := by
  decide

/-- On every system, the only value `netcat_socket_new_listen` ever gives for
`SO_REUSEADDR` is 0. -/
theorem new_listen_reuseaddr_values {σ : Type} (T : Abi) (K : Kernel σ) (w : σ)
    (addr : in_addr) (port : Nat) :
    (netcat_socket_new_listen T K w addr port).2.1.filterMap reuseaddr_value =
      if (K.call w (SysCall.socket SysConst.PF_INET SysConst.SOCK_STREAM 0)).1 < 0 then []
      else [0] := by
  unfold netcat_socket_new_listen
  simp only
  split
  · rfl
  · split
    · rfl
    · split
      · rfl
      · split <;> rfl

/-- C9: `netcat_socket_new_listen` calls `socket`, `setsockopt`, `bind` and
`listen` (backlog 4) in this order and stops at the first call that returns a
negative value, with result -1, -2, -3 or -4 for the first, second, third or
fourth call, and no later call is made; when the four calls succeed the result
is the descriptor `socket` returned, which is not negative. So the result
tells which call failed, or that none did. -/
theorem new_listen_steps {σ : Type} (T : Abi) (K : Kernel σ) (w : σ) (addr : in_addr)
    (port : Nat) :
    ∃ (sock : Int) (r1 r2 r3 r4 : Int × σ),
      r1 = K.call w (SysCall.socket SysConst.PF_INET SysConst.SOCK_STREAM 0) ∧
      sock = r1.1 ∧
      r2 = K.call r1.2
        (SysCall.setsockopt sock SysConst.SOL_SOCKET SysConst.SO_REUSEADDR 0) ∧
      r3 = K.call r2.2
        (SysCall.bind sock
          { sin_family := SysConst.AF_INET, sin_port := htons T port, sin_addr := addr }) ∧
      r4 = K.call r3.2 (SysCall.listen sock 4) ∧
      ((r1.1 < 0 ∧ netcat_socket_new_listen T K w addr port =
          (-1, [SysCall.socket SysConst.PF_INET SysConst.SOCK_STREAM 0], r1.2)) ∨
       (0 ≤ r1.1 ∧ r2.1 < 0 ∧ netcat_socket_new_listen T K w addr port =
          (-2, [SysCall.socket SysConst.PF_INET SysConst.SOCK_STREAM 0,
                SysCall.setsockopt sock SysConst.SOL_SOCKET SysConst.SO_REUSEADDR 0],
            r2.2)) ∨
       (0 ≤ r1.1 ∧ 0 ≤ r2.1 ∧ r3.1 < 0 ∧ netcat_socket_new_listen T K w addr port =
          (-3, [SysCall.socket SysConst.PF_INET SysConst.SOCK_STREAM 0,
                SysCall.setsockopt sock SysConst.SOL_SOCKET SysConst.SO_REUSEADDR 0,
                SysCall.bind sock
                  { sin_family := SysConst.AF_INET, sin_port := htons T port,
                    sin_addr := addr }],
            r3.2)) ∨
       (0 ≤ r1.1 ∧ 0 ≤ r2.1 ∧ 0 ≤ r3.1 ∧ r4.1 < 0 ∧
          netcat_socket_new_listen T K w addr port =
          (-4, [SysCall.socket SysConst.PF_INET SysConst.SOCK_STREAM 0,
                SysCall.setsockopt sock SysConst.SOL_SOCKET SysConst.SO_REUSEADDR 0,
                SysCall.bind sock
                  { sin_family := SysConst.AF_INET, sin_port := htons T port,
                    sin_addr := addr },
                SysCall.listen sock 4],
            r4.2)) ∨
       (0 ≤ r1.1 ∧ 0 ≤ r2.1 ∧ 0 ≤ r3.1 ∧ 0 ≤ r4.1 ∧
          netcat_socket_new_listen T K w addr port =
          (sock, [SysCall.socket SysConst.PF_INET SysConst.SOCK_STREAM 0,
                SysCall.setsockopt sock SysConst.SOL_SOCKET SysConst.SO_REUSEADDR 0,
                SysCall.bind sock
                  { sin_family := SysConst.AF_INET, sin_port := htons T port,
                    sin_addr := addr },
                SysCall.listen sock 4],
            r4.2))) ∧
      ((netcat_socket_new_listen T K w addr port).1 = -1 ↔ r1.1 < 0) ∧
      ((netcat_socket_new_listen T K w addr port).1 = -2 ↔ 0 ≤ r1.1 ∧ r2.1 < 0) ∧
      ((netcat_socket_new_listen T K w addr port).1 = -3 ↔ 0 ≤ r1.1 ∧ 0 ≤ r2.1 ∧ r3.1 < 0) ∧
      ((netcat_socket_new_listen T K w addr port).1 = -4 ↔
        0 ≤ r1.1 ∧ 0 ≤ r2.1 ∧ 0 ≤ r3.1 ∧ r4.1 < 0) ∧
      (0 ≤ (netcat_socket_new_listen T K w addr port).1 ↔
        0 ≤ r1.1 ∧ 0 ≤ r2.1 ∧ 0 ≤ r3.1 ∧ 0 ≤ r4.1) := by
  refine ⟨_, _, _, _, _, rfl, rfl, rfl, rfl, rfl, ?_⟩
  generalize hr1 : K.call w (SysCall.socket SysConst.PF_INET SysConst.SOCK_STREAM 0) = r1
  generalize hr2 : K.call r1.2
    (SysCall.setsockopt r1.1 SysConst.SOL_SOCKET SysConst.SO_REUSEADDR 0) = r2
  generalize hr3 : K.call r2.2 (SysCall.bind r1.1
    { sin_family := SysConst.AF_INET, sin_port := htons T port, sin_addr := addr }) = r3
  generalize hr4 : K.call r3.2 (SysCall.listen r1.1 4) = r4
  have hrun : netcat_socket_new_listen T K w addr port =
      if r1.1 < 0 then (-1, [SysCall.socket SysConst.PF_INET SysConst.SOCK_STREAM 0], r1.2)
      else if r2.1 < 0 then
        (-2, [SysCall.socket SysConst.PF_INET SysConst.SOCK_STREAM 0,
              SysCall.setsockopt r1.1 SysConst.SOL_SOCKET SysConst.SO_REUSEADDR 0], r2.2)
      else if r3.1 < 0 then
        (-3, [SysCall.socket SysConst.PF_INET SysConst.SOCK_STREAM 0,
              SysCall.setsockopt r1.1 SysConst.SOL_SOCKET SysConst.SO_REUSEADDR 0,
              SysCall.bind r1.1
                { sin_family := SysConst.AF_INET, sin_port := htons T port,
                  sin_addr := addr }], r3.2)
      else if r4.1 < 0 then
        (-4, [SysCall.socket SysConst.PF_INET SysConst.SOCK_STREAM 0,
              SysCall.setsockopt r1.1 SysConst.SOL_SOCKET SysConst.SO_REUSEADDR 0,
              SysCall.bind r1.1
                { sin_family := SysConst.AF_INET, sin_port := htons T port,
                  sin_addr := addr },
              SysCall.listen r1.1 4], r4.2)
      else
        (r1.1, [SysCall.socket SysConst.PF_INET SysConst.SOCK_STREAM 0,
              SysCall.setsockopt r1.1 SysConst.SOL_SOCKET SysConst.SO_REUSEADDR 0,
              SysCall.bind r1.1
                { sin_family := SysConst.AF_INET, sin_port := htons T port,
                  sin_addr := addr },
              SysCall.listen r1.1 4], r4.2) := by
    unfold netcat_socket_new_listen
    simp only [hr1, hr2, hr3, hr4]
  rw [hrun]
  by_cases h1 : r1.1 < 0
  · rw [if_pos h1]
    refine ⟨Or.inl ⟨h1, rfl⟩, ?_, ?_, ?_, ?_, ?_⟩ <;>
        simp only [true_iff, false_iff] <;> omega
  · rw [if_neg h1]
    by_cases h2 : r2.1 < 0
    · rw [if_pos h2]
      refine ⟨Or.inr (Or.inl ⟨by omega, h2, rfl⟩), ?_, ?_, ?_, ?_, ?_⟩ <;>
        simp only [true_iff, false_iff] <;> omega
    · rw [if_neg h2]
      by_cases h3 : r3.1 < 0
      · rw [if_pos h3]
        refine ⟨Or.inr (Or.inr (Or.inl ⟨by omega, by omega, h3, rfl⟩)), ?_, ?_, ?_, ?_, ?_⟩ <;>
          simp only [true_iff, false_iff] <;> omega
      · rw [if_neg h3]
        by_cases h4 : r4.1 < 0
        · rw [if_pos h4]
          refine ⟨Or.inr (Or.inr (Or.inr (Or.inl ⟨by omega, by omega, by omega, h4, rfl⟩))),
            ?_, ?_, ?_, ?_, ?_⟩ <;>
        simp only [true_iff, false_iff] <;> omega
        · rw [if_neg h4]
          refine ⟨Or.inr (Or.inr (Or.inr (Or.inr ⟨by omega, by omega, by omega, by omega,
            rfl⟩))), ?_, ?_, ?_, ?_, ?_⟩ <;>
        simp only [true_iff, false_iff] <;> omega

/-- C10: `netcat_socket_accept` makes one `select` call on the read set `[fd]`,
with a timeout of `timeout` seconds when `timeout > 0` and with no timeout
otherwise; when `fd` is not in the set `select` leaves, the result is -1 and
`accept` is not called, and when it is, `accept` is called once on `fd` and its
return value is the result. -/
theorem socket_accept_outcomes {σ : Type} (K : Kernel σ) (w : σ) (fd timeout : Int) :
    ∃ (tmo : Option timeval) (r1 : List Int × σ),
      tmo = (if timeout > 0 then some { tv_sec := timeout, tv_usec := 0 } else none) ∧
      (0 < timeout → tmo = some { tv_sec := timeout, tv_usec := 0 }) ∧
      (timeout ≤ 0 → tmo = none) ∧
      r1 = K.select w (fd + 1) [fd] tmo ∧
      ((fd ∉ r1.1 ∧ netcat_socket_accept K w fd timeout =
          (-1, [SysCall.select (fd + 1) [fd] tmo], r1.2)) ∨
       (fd ∈ r1.1 ∧ netcat_socket_accept K w fd timeout =
          ((K.call r1.2 (SysCall.accept fd)).1,
            [SysCall.select (fd + 1) [fd] tmo, SysCall.accept fd],
            (K.call r1.2 (SysCall.accept fd)).2))) := by
  refine ⟨_, _, rfl, fun h => if_pos h, fun h => if_neg (not_lt.mpr h), rfl, ?_⟩
  unfold netcat_socket_accept
  simp only
  generalize (if timeout > 0 then some ({ tv_sec := timeout, tv_usec := 0 } : timeval)
    else none) = tmo
  by_cases h : fd ∈ (K.select w (fd + 1) [fd] tmo).1
  · right
    exact ⟨h, by rw [if_pos h]⟩
  · left
    exact ⟨h, by rw [if_neg h]⟩

end Netcat
